import Mathlib

/-!
# Verification of the PPO agent (`Agents/Policy_Gradient_Agents/PPO_Agent.py`)

A shallow embedding of the PPO agent's learning-loop computations, and proofs of the
specified properties.

Conventions of the embedding:
* python floats are modelled by exact rationals `ℚ` wherever the computation is
  algebraic; the special IEEE values (`inf`, `-inf`, `NaN`) and their propagation
  through the torch operations are modelled by the dedicated type `FVal` below, used
  for the numerical-robustness property;
* python `zip` over two or three lists (which truncates to the shortest list) is
  modelled by `List.zipWith` and `zipWith3`;
* the stateful training loop `run_n_episodes` is modelled by explicit state passing
  over `LoopState`; the while-loop is given as fuel-indexed structural recursion with
  `none` marking the (unreachable for positive `episodes_per_learning_round`) case of
  exhausted fuel;
* the collaborators that live outside this file's source (`Base_Agent`,
  `Neural_Network`, `Parallel_Experience_Generator`, torch's optimiser/`exp`) are
  modelled from the spec and passed in as explicit oracles; they are marked
  `Modelled from the spec:` in their doc comments.
-/

namespace PPO

/-- Python `zip` over three lists followed by a map, as in
`[... for a, b, c in zip(xs, ys, zs)]`: truncates to the shortest list. -/
def zipWith3 {α β γ δ : Type} (f : α → β → γ → δ) : List α → List β → List γ → List δ
  | x :: xs, y :: ys, z :: zs => f x y z :: zipWith3 f xs ys zs
  | _, _, _ => []

/-- Embeds `calculate_discounted_reward(self, rewards)`:
`discounts = self.hyperparameters["discount_rate"] ** np.arange(len(rewards))` followed by
`np.dot(discounts, rewards)`. -/
def calculate_discounted_reward (discount_rate : ℚ) (rewards : List ℚ) : ℚ :=
  let discounts := (List.range rewards.length).map (fun k => discount_rate ^ k)
  (List.zipWith (fun d r => d * r) discounts rewards).sum

/-- Embeds `torch.clamp(value, min=lo, max=hi)` on a (finite) scalar:
the result is `value` pushed into `[lo, hi]`. -/
def clampQ (x lo hi : ℚ) : ℚ := min (max x lo) hi

/-- Embeds `calculate_loss(self, all_ratio_of_policy_probabilities, all_discounted_returns)`:
per-element clamp of the ratios to `[1 - clip_epsilon, 1 + clip_epsilon]`, the elementwise
`min` of the raw and clipped surrogate products, then
`- torch.sum(...) / len(all_ratio_of_policy_probabilities)`. -/
def calculate_loss (clip_epsilon : ℚ) (ratios returns : List ℚ) : ℚ :=
  let clipped := ratios.map (fun v => clampQ v (1 - clip_epsilon) (1 + clip_epsilon))
  let observation_losses := zipWith3 (fun r g c => min (r * g) (c * g)) ratios returns clipped
  (-(observation_losses.sum)) / (ratios.length : ℚ)

/-- The pair of policy networks owned by the agent, reduced to their parameter
vectors: `policy_new` is the optimised ("current") network, `policy_old` the
reference snapshot. The parameter type is abstract; the agent uses `ℚ`-valued
parameters in the concrete instances below. -/
structure PolicyPair (α : Type) where
  policy_new : List α
  policy_old : List α

/-- One sweep of `for old_param, new_param in zip(old.parameters(), new.parameters()):
old_param.data.copy_(new_param.data)`: positions covered by the `zip` receive the new
value, positions of `old` beyond the length of `new` are left as they were. -/
def copyParams {α : Type} : List α → List α → List α
  | _ :: olds, n :: news => n :: copyParams olds news
  | olds, [] => olds
  | [], _ :: _ => []

/-- Embeds `equalise_policies(self)`: sets the old policy's parameters equal to the
new policy's parameters. -/
def equalise_policies {α : Type} (p : PolicyPair α) : PolicyPair α :=
  { p with policy_old := copyParams p.policy_old p.policy_new }

/-- Embeds `take_policy_new_optimisation_step(self, loss)`. Modelled from the spec:
the Adam optimiser was constructed over `self.policy_new.parameters()` only, so
`zero_grad`/`backward`/`step` amount to applying some parameter update (the oracle
`optimiser_update`) to `policy_new`'s parameters and to nothing else. -/
def take_policy_new_optimisation_step {α : Type} (optimiser_update : List α → List α)
    (p : PolicyPair α) : PolicyPair α :=
  { p with policy_new := optimiser_update p.policy_new }

/-- Embeds `calculate_policy_action_probability_ratio(self, state, action)`:
`torch.exp(new_log_prob) / torch.exp(old_log_prob)`. Modelled from the spec: the
composite `Neural_Network.forward` + `create_actor_distribution` + `log_prob` is the
oracle `log_prob`, a function of the acting network's parameter vector and the
(state, action) pair; `torch.exp` is the oracle `torch_exp`. Both oracles are shared
by the two policies, which differ only in their parameter vectors. -/
def calculate_policy_action_probability_ratio {S A : Type} (torch_exp : ℚ → ℚ)
    (log_prob : List ℚ → S → A → ℚ) (p : PolicyPair ℚ) (state : S) (action : A) : ℚ :=
  torch_exp (log_prob p.policy_new state action) /
    torch_exp (log_prob p.policy_old state action)

/-- Python slice `l[-w:]` for a window size `w` (`w = 0` degenerates to the whole
list, as `l[0:]` does in python). -/
def lastWindow (w : ℕ) (l : List ℚ) : List ℚ :=
  if w = 0 then l else l.drop (l.length - w)

/-- `np.mean` of a list of scalars. -/
def npMean (l : List ℚ) : ℚ := l.sum / (l.length : ℚ)

/-- Embeds `save_result(self)`: for each episode of the round's batch, append the
episode's total reward to `game_full_episode_scores` and then append
`np.mean(self.game_full_episode_scores[-self.rolling_score_window:])` to
`rolling_results`. Returns the updated pair (scores, rolling results). -/
def save_result (rolling_score_window : ℕ) :
    List ℚ → List ℚ → List (List ℚ) → List ℚ × List ℚ
  | scores, rolling, [] => (scores, rolling)
  | scores, rolling, ep :: eps =>
      let scores' := scores ++ [ep.sum]
      let rolling' := rolling ++ [npMean (lastWindow rolling_score_window scores')]
      save_result rolling_score_window scores' rolling' eps

/-- The hyperparameters and config values consumed by `run_n_episodes`. -/
structure PPOHyper where
  episodes_per_learning_round : ℕ
  learning_iterations_per_round : ℕ
  num_episodes_to_run : ℕ
  average_score_required_to_win : ℚ
  rolling_score_window : ℕ

/-- The mutable agent state threaded through the training loop. Besides the
bookkeeping lists of `Base_Agent`, it counts the calls the loop makes to
`policy_learn`, `update_learning_rate`, `equalise_policies` and
`play_n_episodes`, so that the loop's temporal claims can be stated. -/
structure LoopState where
  episode_number : ℕ
  game_full_episode_scores : List ℚ
  rolling_results : List ℚ
  max_rolling_score_seen : ℚ
  learn_calls : ℕ
  lr_update_calls : ℕ
  sync_calls : ℕ
  collect_calls : ℕ
deriving DecidableEq

/-- Modelled from the spec: `Base_Agent.save_max_result_seen` keeps
`max_rolling_score_seen`, the maximum rolling-average score seen so far, here folded
over the rolling entries appended by the current round. -/
def save_max_result_seen (current_max : ℚ) (new_rolling_entries : List ℚ) : ℚ :=
  new_rolling_entries.foldl max current_max

/-- One COLLECTING phase of the loop body. Modelled from the spec where it leaves the
source file: `Parallel_Experience_Generator.play_n_episodes` is the oracle `batches`,
giving the per-episode reward sequences of each successive collection call (states and
actions feed only the ratio engine, which is modelled separately);
`save_and_print_result` is `save_result` followed by `save_max_result_seen`. The
episode counter increments by `episodes_per_learning_round`, as in the source. -/
def collect_and_save (hp : PPOHyper) (batches : ℕ → List (List ℚ)) (st : LoopState) :
    LoopState :=
  let batch := batches st.collect_calls
  let sr := save_result hp.rolling_score_window st.game_full_episode_scores
    st.rolling_results batch
  { st with
    collect_calls := st.collect_calls + 1
    episode_number := st.episode_number + hp.episodes_per_learning_round
    game_full_episode_scores := sr.1
    rolling_results := sr.2
    max_rolling_score_seen :=
      save_max_result_seen st.max_rolling_score_seen (sr.2.drop st.rolling_results.length) }

/-- The LEARNING and SYNCING phases of one loop body, reduced to their call counts:
`learning_iterations_per_round` calls to `policy_learn`, one call to
`update_learning_rate`, one call to `equalise_policies`. -/
def learn_and_sync (hp : PPOHyper) (st : LoopState) : LoopState :=
  { st with
    learn_calls := st.learn_calls + hp.learning_iterations_per_round
    lr_update_calls := st.lr_update_calls + 1
    sync_calls := st.sync_calls + 1 }

/-- The while-loop of `run_n_episodes`, as fuel-indexed structural recursion: while
`episode_number < num_episodes_to_run`, collect a round and record results; break
immediately when `max_rolling_score_seen > average_score_required_to_win`; otherwise
learn, update the learning rate, equalise the policies and iterate. `none` marks
exhausted fuel. -/
def run_n_episodes_aux (hp : PPOHyper) (batches : ℕ → List (List ℚ)) :
    ℕ → LoopState → Option LoopState
  | 0, _ => none
  | fuel + 1, st =>
      if st.episode_number < hp.num_episodes_to_run then
        let st1 := collect_and_save hp batches st
        if hp.average_score_required_to_win < st1.max_rolling_score_seen then some st1
        else run_n_episodes_aux hp batches fuel (learn_and_sync hp st1)
      else some st

/-- Embeds the loop of `run_n_episodes(self, num_episodes_to_run, save_model)`. Fuel
`num_episodes_to_run + 1` suffices whenever `episodes_per_learning_round > 0`, because
each iteration increases `episode_number` by at least one; for
`episodes_per_learning_round = 0` the source loop diverges and the model may return
`none`. The final `LoopState` carries the two returned score histories
(`game_full_episode_scores` and `rolling_results`); the third returned value of the
source, the elapsed wall-clock time, has no algebraic content and is not modelled. -/
def run_n_episodes (hp : PPOHyper) (batches : ℕ → List (List ℚ)) (st : LoopState) :
    Option LoopState :=
  run_n_episodes_aux hp batches (hp.num_episodes_to_run + 1) st

/-- A torch scalar as IEEE-754 arithmetic sees it: an exact finite value, a signed
infinity, or `NaN`. Used to follow the special values through `calculate_loss`. -/
inductive FVal where
  | nan : FVal
  | pinf : FVal
  | ninf : FVal
  | fin : ℚ → FVal
deriving DecidableEq

/-- IEEE negation of a torch scalar. -/
def fneg : FVal → FVal
  | .nan => .nan
  | .pinf => .ninf
  | .ninf => .pinf
  | .fin q => .fin (-q)

/-- IEEE addition of torch scalars: `NaN` propagates, opposite infinities give `NaN`. -/
def fadd : FVal → FVal → FVal
  | .nan, _ => .nan
  | _, .nan => .nan
  | .pinf, .ninf => .nan
  | .ninf, .pinf => .nan
  | .pinf, _ => .pinf
  | _, .pinf => .pinf
  | .ninf, _ => .ninf
  | _, .ninf => .ninf
  | .fin a, .fin b => .fin (a + b)

/-- IEEE multiplication of torch scalars: `NaN` propagates, `inf * 0 = NaN`,
infinities multiply by sign. -/
def fmul : FVal → FVal → FVal
  | .nan, _ => .nan
  | _, .nan => .nan
  | .pinf, .pinf => .pinf
  | .pinf, .ninf => .ninf
  | .ninf, .pinf => .ninf
  | .ninf, .ninf => .pinf
  | .pinf, .fin q => if 0 < q then .pinf else if q < 0 then .ninf else .nan
  | .fin q, .pinf => if 0 < q then .pinf else if q < 0 then .ninf else .nan
  | .ninf, .fin q => if 0 < q then .ninf else if q < 0 then .pinf else .nan
  | .fin q, .ninf => if 0 < q then .ninf else if q < 0 then .pinf else .nan
  | .fin a, .fin b => .fin (a * b)

/-- `torch.min` of two scalars: `NaN` propagates, otherwise the usual order with
`-inf` at the bottom and `+inf` at the top. -/
def fmin : FVal → FVal → FVal
  | .nan, _ => .nan
  | _, .nan => .nan
  | .ninf, _ => .ninf
  | _, .ninf => .ninf
  | .pinf, y => y
  | x, .pinf => x
  | .fin a, .fin b => .fin (min a b)

/-- `torch.max` of two scalars: `NaN` propagates, dual to `fmin`. -/
def fmax : FVal → FVal → FVal
  | .nan, _ => .nan
  | _, .nan => .nan
  | .pinf, _ => .pinf
  | _, .pinf => .pinf
  | .ninf, y => y
  | x, .ninf => x
  | .fin a, .fin b => .fin (max a b)

/-- `torch.clamp(x, min=lo, max=hi)` on torch scalars. -/
def fclamp (x lo hi : FVal) : FVal := fmin (fmax x lo) hi

/-- `torch.sum` of a list of torch scalars. -/
def fsum (l : List FVal) : FVal := l.foldr fadd (.fin 0)

/-- IEEE division of a torch scalar by a python integer (the batch length):
`±inf / n = ±inf`, finite values divide exactly, division by `0` follows the IEEE
signs with `0 / 0 = NaN`. -/
def fdivNat : FVal → ℕ → FVal
  | .nan, _ => .nan
  | .pinf, _ => .pinf
  | .ninf, _ => .ninf
  | .fin q, n =>
      if n = 0 then (if 0 < q then .pinf else if q < 0 then .ninf else .nan)
      else .fin (q / (n : ℚ))

/-- `calculate_loss` re-run over torch scalars with IEEE special values, for the
numerical-robustness property: identical structure to `calculate_loss`, with the
clamp bounds taken finite from `clip_epsilon`. -/
def calculate_loss_float (clip_epsilon : ℚ) (ratios returns : List FVal) : FVal :=
  let clipped := ratios.map
    (fun v => fclamp v (.fin (1 - clip_epsilon)) (.fin (1 + clip_epsilon)))
  let observation_losses := zipWith3 (fun r g c => fmin (fmul r g) (fmul c g))
    ratios returns clipped
  fdivNat (fneg (fsum observation_losses)) ratios.length

/-- Concrete hyperparameters for the early-stopping round: one round of one episode
wins immediately. -/
def hpStop : PPOHyper :=
  { episodes_per_learning_round := 1
    learning_iterations_per_round := 3
    num_episodes_to_run := 1
    average_score_required_to_win := 0
    rolling_score_window := 1 }

/-- Concrete hyperparameters for the round-counting counterexample: rounds of one
episode, two episodes requested. -/
def hpRounds : PPOHyper :=
  { episodes_per_learning_round := 1
    learning_iterations_per_round := 1
    num_episodes_to_run := 2
    average_score_required_to_win := 0
    rolling_score_window := 1 }

/-- Concrete hyperparameters for the no-early-stop run: rounds of two episodes,
three episodes requested, so the loop overshoots to four. -/
def hpOvershoot : PPOHyper :=
  { episodes_per_learning_round := 2
    learning_iterations_per_round := 1
    num_episodes_to_run := 3
    average_score_required_to_win := 0
    rolling_score_window := 1 }

/-- A trajectory-generator oracle: every collection call returns one episode with a
single reward of `1`. -/
def batchesOne : ℕ → List (List ℚ) := fun _ => [[1]]

/-- A trajectory-generator oracle returning empty batches (no episodes scored), so
the rolling score never moves. -/
def batchesEmpty : ℕ → List (List ℚ) := fun _ => []

/-- The agent state at the start of `run_n_episodes`: counter zero, empty histories. -/
def stInit : LoopState :=
  { episode_number := 0
    game_full_episode_scores := []
    rolling_results := []
    max_rolling_score_seen := 0
    learn_calls := 0
    lr_update_calls := 0
    sync_calls := 0
    collect_calls := 0 }

/-! ## Helper lemmas -/

lemma zipWith_range_map_sum :
    ∀ (l : List ℚ) (f : ℕ → ℚ),
      (List.zipWith (fun d r => d * r) ((List.range l.length).map f) l).sum
        = ∑ k ∈ Finset.range l.length, f k * l.getD k 0 := by
  intro l
  induction l with
  | nil => intro f; simp
  | cons x xs ih =>
    intro f
    rw [List.length_cons, List.range_succ_eq_map, List.map_cons, List.map_map,
      List.zipWith_cons_cons, List.sum_cons, Finset.sum_range_succ']
    simp only [List.getD_cons_succ, List.getD_cons_zero]
    rw [ih (f ∘ Nat.succ)]
    simp only [Function.comp_apply, Nat.succ_eq_add_one]
    exact add_comm _ _

lemma zipWith3_map_sum (f : ℚ → ℚ → ℚ → ℚ) (g : ℚ → ℚ) :
    ∀ (a b : List ℚ), b.length = a.length →
      (zipWith3 f a b (a.map g)).sum
        = ∑ i ∈ Finset.range a.length, f (a.getD i 0) (b.getD i 0) (g (a.getD i 0)) := by
  intro a
  induction a with
  | nil => intro b hb; simp [zipWith3]
  | cons x xs ih =>
    intro b hb
    cases b with
    | nil => simp at hb
    | cons y ys =>
      rw [List.map_cons]
      show (f x y (g x) :: zipWith3 f xs ys (xs.map g)).sum = _
      rw [List.sum_cons, List.length_cons, Finset.sum_range_succ']
      simp only [List.getD_cons_succ, List.getD_cons_zero]
      rw [ih ys (by simpa using hb)]
      exact add_comm _ _

/-! ## C2: the discounted return -/

/-- C2: for every reward sequence `r` and discount rate `gamma`,
`calculate_discounted_reward` returns `∑ k, gamma ^ k * r[k]`; in particular it
returns `0` on the empty sequence. (The embedding is a pure function of the reward
list, so the reward sequence itself is untouched.) -/
theorem calculate_discounted_reward_spec (discount_rate : ℚ) (rewards : List ℚ) :
    calculate_discounted_reward discount_rate rewards
      = ∑ k ∈ Finset.range rewards.length, discount_rate ^ k * rewards.getD k 0
    ∧ calculate_discounted_reward discount_rate [] = 0 := by
  refine ⟨?_, rfl⟩
  show (List.zipWith (fun d r => d * r)
      ((List.range rewards.length).map (fun k => discount_rate ^ k)) rewards).sum = _
  exact zipWith_range_map_sum rewards (fun k => discount_rate ^ k)

/-! ## C1: the clipped surrogate loss -/

/-- C1: for parallel ratio/return collections of the same positive length and any
configured `clip_epsilon`, `calculate_loss` returns the negated mean over all
timesteps of the minimum of the raw surrogate `ratio[i] * G[i]` and the clipped
surrogate `clamp(ratio[i], 1 - eps, 1 + eps) * G[i]`. -/
theorem calculate_loss_spec (clip_epsilon : ℚ) (ratios returns : List ℚ)
    (hlen : returns.length = ratios.length) (hpos : 0 < ratios.length) :
    calculate_loss clip_epsilon ratios returns
      = (-(∑ i ∈ Finset.range ratios.length,
            min (ratios.getD i 0 * returns.getD i 0)
              (clampQ (ratios.getD i 0) (1 - clip_epsilon) (1 + clip_epsilon)
                * returns.getD i 0)))
        / (ratios.length : ℚ) := by
  show (-((zipWith3 (fun r g c => min (r * g) (c * g)) ratios returns
      (ratios.map (fun v => clampQ v (1 - clip_epsilon) (1 + clip_epsilon)))).sum))
      / (ratios.length : ℚ) = _
  rw [zipWith3_map_sum (fun r g c => min (r * g) (c * g))
    (fun v => clampQ v (1 - clip_epsilon) (1 + clip_epsilon)) ratios returns hlen]

/-- Witness for C1 at `clip_epsilon = 1/5`, `ratios = [3/2]`, `returns = [10]`. -/
theorem calculate_loss_spec_witness :
    ([10] : List ℚ).length = ([3/2] : List ℚ).length ∧ 0 < ([3/2] : List ℚ).length ∧
    calculate_loss (1/5) [3/2] [10]
      = (-(∑ i ∈ Finset.range ([3/2] : List ℚ).length,
            min (([3/2] : List ℚ).getD i 0 * ([10] : List ℚ).getD i 0)
              (clampQ (([3/2] : List ℚ).getD i 0) (1 - 1/5) (1 + 1/5)
                * ([10] : List ℚ).getD i 0)))
        / (([3/2] : List ℚ).length : ℚ) :=
  ⟨rfl, by decide, calculate_loss_spec (1/5) [3/2] [10] rfl (by decide)⟩

/-! ## C7: the clipping boundary -/

/-- C7: for `eps, delta > 0` and a positive return `G`, a timestep with
`ratio = 1 + eps + delta` contributes the clipped surrogate `(1 + eps) * G`, not
the raw `(1 + eps + delta) * G`: the `min` picks the smaller clipped product, and on
the singleton batch `calculate_loss` accordingly returns `-((1 + eps) * G)`. -/
theorem clipping_boundary (eps delta G : ℚ) (heps : 0 < eps) (hdelta : 0 < delta)
    (hG : 0 < G) :
    min ((1 + eps + delta) * G) (clampQ (1 + eps + delta) (1 - eps) (1 + eps) * G)
      = (1 + eps) * G
    ∧ calculate_loss eps [1 + eps + delta] [G] = -((1 + eps) * G) := by
  have hclamp : clampQ (1 + eps + delta) (1 - eps) (1 + eps) = 1 + eps := by
    unfold clampQ
    rw [max_eq_left (by linarith), min_eq_right (by linarith)]
  have hmin : min ((1 + eps + delta) * G) ((1 + eps) * G) = (1 + eps) * G :=
    min_eq_right (mul_le_mul_of_nonneg_right (by linarith) (le_of_lt hG))
  refine ⟨by rw [hclamp, hmin], ?_⟩
  show (-(((min ((1 + eps + delta) * G)
      (clampQ (1 + eps + delta) (1 - eps) (1 + eps) * G)) :: List.nil).sum))
    / ((1 : ℕ) : ℚ) = -((1 + eps) * G)
  rw [hclamp, hmin, List.sum_cons, List.sum_nil, add_zero, Nat.cast_one, div_one]

/-- Witness for C7 at the spec's example: `clip_epsilon = 1/5`, `ratio = 3/2`
(`delta = 3/10`), `G = 10`, surrogate `12`. -/
theorem clipping_boundary_witness :
    0 < (1/5 : ℚ) ∧ 0 < (3/10 : ℚ) ∧ 0 < (10 : ℚ) ∧
    (min ((1 + 1/5 + 3/10) * 10) (clampQ (1 + 1/5 + 3/10) (1 - 1/5) (1 + 1/5) * 10)
        = (1 + 1/5) * (10 : ℚ)
      ∧ calculate_loss (1/5) [1 + 1/5 + 3/10] [10] = -((1 + 1/5) * 10)) :=
  ⟨by simp, by simp, by simp,
    clipping_boundary (1/5) (3/10) 10 (by simp) (by simp) (by simp)⟩

/-! ## Parameter copying lemmas -/

lemma copyParams_eq_of_length {α : Type} :
    ∀ (a b : List α), a.length = b.length → copyParams a b = b := by
  intro a
  induction a with
  | nil => intro b hb; cases b with
    | nil => rfl
    | cons y ys => simp at hb
  | cons x xs ih =>
    intro b hb
    cases b with
    | nil => simp at hb
    | cons y ys =>
      show y :: copyParams xs ys = y :: ys
      rw [ih ys (by simpa using hb)]

lemma copyParams_nil_right {α : Type} (a : List α) : copyParams a [] = a := by
  cases a <;> rfl

lemma copyParams_length {α : Type} :
    ∀ (a b : List α), (copyParams a b).length = a.length := by
  intro a
  induction a with
  | nil => intro b; cases b <;> rfl
  | cons x xs ih =>
    intro b
    cases b with
    | nil => rfl
    | cons y ys => show (y :: copyParams xs ys).length = _; simp [ih ys]

lemma copyParams_idem {α : Type} :
    ∀ (a b : List α), copyParams (copyParams a b) b = copyParams a b := by
  intro a
  induction a with
  | nil => intro b; cases b <;> rfl
  | cons x xs ih =>
    intro b
    cases b with
    | nil => rw [copyParams_nil_right, copyParams_nil_right]
    | cons y ys =>
      show copyParams (y :: copyParams xs ys) (y :: ys) = y :: copyParams xs ys
      show y :: copyParams (copyParams xs ys) ys = y :: copyParams xs ys
      rw [ih ys]

/-! ## C3: the ratio is 1 right after equalising the policies -/

/-- C3: for any (state, action), calling `equalise_policies` and then immediately
`calculate_policy_action_probability_ratio` yields exactly `1`: after the copy the
two networks hold identical parameters, so they assign the same log-probability to
the action, and in exact arithmetic (where the only hypothesis is that `torch.exp`
returns a nonzero value, as the real exponential does) the two exponentials cancel. -/
theorem ratio_one_after_equalise {S A : Type} (torch_exp : ℚ → ℚ)
    (log_prob : List ℚ → S → A → ℚ) (p : PolicyPair ℚ) (state : S) (action : A)
    (hlen : p.policy_old.length = p.policy_new.length)
    (hexp : torch_exp (log_prob p.policy_new state action) ≠ 0) :
    calculate_policy_action_probability_ratio torch_exp log_prob
      (equalise_policies p) state action = 1 := by
  unfold calculate_policy_action_probability_ratio equalise_policies
  simp only
  rw [copyParams_eq_of_length p.policy_old p.policy_new hlen]
  exact div_self hexp

/-- Witness for C3 with a concrete exponential oracle, log-probability oracle and
parameter vectors. -/
theorem ratio_one_after_equalise_witness :
    (PolicyPair.policy_old ⟨[1, 2], [3, 4]⟩ : List ℚ).length
        = (PolicyPair.policy_new ⟨[1, 2], [3, 4]⟩ : List ℚ).length
    ∧ (fun q : ℚ => q + 3) ((fun (params : List ℚ) (_ : Unit) (_ : Unit) => params.sum)
        (PolicyPair.policy_new ⟨[1, 2], [3, 4]⟩) () ()) ≠ 0
    ∧ calculate_policy_action_probability_ratio (fun q : ℚ => q + 3)
        (fun (params : List ℚ) (_ : Unit) (_ : Unit) => params.sum)
        (equalise_policies ⟨[1, 2], [3, 4]⟩) () () = 1 :=
  ⟨rfl, by norm_num,
    ratio_one_after_equalise (fun q : ℚ => q + 3)
      (fun (params : List ℚ) (_ : Unit) (_ : Unit) => params.sum)
      ⟨[1, 2], [3, 4]⟩ () () rfl (by norm_num)⟩

/-! ## C5: the reference policy changes only via the copy -/

/-- C5: `equalise_policies` copies every parameter value of `policy_new` into the
corresponding parameter of `policy_old` (a pure value copy — for equally long
parameter vectors the old vector becomes exactly the new one, the new one is
untouched), while the optimisation step rewrites only `policy_new`'s parameters and
leaves every parameter of `policy_old` unchanged. -/
theorem reference_policy_frame {α : Type} (p : PolicyPair α)
    (optimiser_update : List α → List α)
    (hlen : p.policy_old.length = p.policy_new.length) :
    (equalise_policies p).policy_old = p.policy_new
    ∧ (equalise_policies p).policy_new = p.policy_new
    ∧ (take_policy_new_optimisation_step optimiser_update p).policy_old = p.policy_old
    ∧ (take_policy_new_optimisation_step optimiser_update p).policy_new
        = optimiser_update p.policy_new :=
  ⟨copyParams_eq_of_length p.policy_old p.policy_new hlen, rfl, rfl, rfl⟩

/-- Witness for C5 at concrete parameter vectors and a concrete update. -/
theorem reference_policy_frame_witness :
    (PolicyPair.policy_old ⟨[1, 2], [3, 4]⟩ : List ℚ).length
        = (PolicyPair.policy_new ⟨[1, 2], [3, 4]⟩ : List ℚ).length
    ∧ ((equalise_policies (⟨[1, 2], [3, 4]⟩ : PolicyPair ℚ)).policy_old = [1, 2]
      ∧ (equalise_policies (⟨[1, 2], [3, 4]⟩ : PolicyPair ℚ)).policy_new = [1, 2]
      ∧ (take_policy_new_optimisation_step (fun l => l.map (· + 1))
          (⟨[1, 2], [3, 4]⟩ : PolicyPair ℚ)).policy_old = [3, 4]
      ∧ (take_policy_new_optimisation_step (fun l => l.map (· + 1))
          (⟨[1, 2], [3, 4]⟩ : PolicyPair ℚ)).policy_new
          = ([1, 2] : List ℚ).map (· + 1)) :=
  ⟨rfl, reference_policy_frame ⟨[1, 2], [3, 4]⟩ (fun l => l.map (· + 1)) rfl⟩

/-! ## C10: equalising the policies is idempotent -/

/-- C10: immediately after one `equalise_policies` call every parameter of
`policy_old` equals the corresponding parameter of `policy_new` (for equally long
parameter vectors the two vectors coincide), and a second consecutive call leaves
the pair exactly as the first left it. -/
theorem equalise_policies_idempotent {α : Type} (p : PolicyPair α)
    (hlen : p.policy_old.length = p.policy_new.length) :
    (equalise_policies p).policy_old = (equalise_policies p).policy_new
    ∧ equalise_policies (equalise_policies p) = equalise_policies p := by
  constructor
  · exact copyParams_eq_of_length p.policy_old p.policy_new hlen
  · cases p with
    | mk pnew pold =>
      show PolicyPair.mk pnew (copyParams (copyParams pold pnew) pnew)
        = PolicyPair.mk pnew (copyParams pold pnew)
      rw [copyParams_idem pold pnew]

/-- Witness for C10 at concrete parameter vectors. -/
theorem equalise_policies_idempotent_witness :
    (PolicyPair.policy_old ⟨[5, 6], [7, 8]⟩ : List ℚ).length
        = (PolicyPair.policy_new ⟨[5, 6], [7, 8]⟩ : List ℚ).length
    ∧ ((equalise_policies (⟨[5, 6], [7, 8]⟩ : PolicyPair ℚ)).policy_old
        = (equalise_policies (⟨[5, 6], [7, 8]⟩ : PolicyPair ℚ)).policy_new
      ∧ equalise_policies (equalise_policies (⟨[5, 6], [7, 8]⟩ : PolicyPair ℚ))
        = equalise_policies (⟨[5, 6], [7, 8]⟩ : PolicyPair ℚ)) :=
  ⟨rfl, equalise_policies_idempotent ⟨[5, 6], [7, 8]⟩ rfl⟩

/-! ## Loop-stepping lemmas -/

lemma run_break_step (hp : PPOHyper) (batches : ℕ → List (List ℚ)) (st : LoopState)
    (hrun : st.episode_number < hp.num_episodes_to_run)
    (hwin : hp.average_score_required_to_win
        < (collect_and_save hp batches st).max_rolling_score_seen) :
    run_n_episodes hp batches st = some (collect_and_save hp batches st) := by
  show run_n_episodes_aux hp batches (hp.num_episodes_to_run + 1) st = _
  rw [run_n_episodes_aux]
  simp only [if_pos hrun, if_pos hwin]

lemma run_continue_step (hp : PPOHyper) (batches : ℕ → List (List ℚ)) (st : LoopState)
    (fuel : ℕ) (hrun : st.episode_number < hp.num_episodes_to_run)
    (hnowin : ¬ hp.average_score_required_to_win
        < (collect_and_save hp batches st).max_rolling_score_seen) :
    run_n_episodes_aux hp batches (fuel + 1) st
      = run_n_episodes_aux hp batches fuel (learn_and_sync hp (collect_and_save hp batches st)) := by
  rw [run_n_episodes_aux]
  simp only [if_pos hrun, if_neg hnowin]

lemma run_done_step (hp : PPOHyper) (batches : ℕ → List (List ℚ)) (st : LoopState)
    (fuel : ℕ) (hdone : ¬ st.episode_number < hp.num_episodes_to_run) :
    run_n_episodes_aux hp batches (fuel + 1) st = some st := by
  rw [run_n_episodes_aux]
  simp only [if_neg hdone]

/-! ## C4: the termination condition stops the loop before any further work -/

/-- C4: whenever, right after a collection phase, `max_rolling_score_seen` exceeds
`average_score_required_to_win`, the loop exits at once with that state: it starts no
new collection phase (exactly the terminal round's collection happened) and performs
no learning iteration, no learning-rate update and no `equalise_policies` call on the
terminal round's data. -/
theorem termination_skips_learning (hp : PPOHyper) (batches : ℕ → List (List ℚ))
    (st : LoopState) (hrun : st.episode_number < hp.num_episodes_to_run)
    (hwin : hp.average_score_required_to_win
        < (collect_and_save hp batches st).max_rolling_score_seen) :
    run_n_episodes hp batches st = some (collect_and_save hp batches st)
    ∧ (collect_and_save hp batches st).learn_calls = st.learn_calls
    ∧ (collect_and_save hp batches st).lr_update_calls = st.lr_update_calls
    ∧ (collect_and_save hp batches st).sync_calls = st.sync_calls
    ∧ (collect_and_save hp batches st).collect_calls = st.collect_calls + 1 :=
  ⟨run_break_step hp batches st hrun hwin, rfl, rfl, rfl, rfl⟩

/-- Witness for C4: one round of one episode with reward `1` immediately beats the
target score `0`, and the loop returns with zero learning, learning-rate and sync
calls on the books. -/
theorem termination_skips_learning_witness :
    stInit.episode_number < hpStop.num_episodes_to_run
    ∧ hpStop.average_score_required_to_win
        < (collect_and_save hpStop batchesOne stInit).max_rolling_score_seen
    ∧ (run_n_episodes hpStop batchesOne stInit
          = some (collect_and_save hpStop batchesOne stInit)
      ∧ (collect_and_save hpStop batchesOne stInit).learn_calls = stInit.learn_calls
      ∧ (collect_and_save hpStop batchesOne stInit).lr_update_calls
          = stInit.lr_update_calls
      ∧ (collect_and_save hpStop batchesOne stInit).sync_calls = stInit.sync_calls
      ∧ (collect_and_save hpStop batchesOne stInit).collect_calls
          = stInit.collect_calls + 1) :=
  ⟨by decide,
    by simp [collect_and_save, save_result, save_max_result_seen, npMean, lastWindow,
      hpStop, batchesOne, stInit],
    termination_skips_learning hpStop batchesOne stInit (by decide)
      (by simp [collect_and_save, save_result, save_max_result_seen, npMean, lastWindow,
        hpStop, batchesOne, stInit])⟩

/-! ## C9: whole learning rounds and the episode count -/

/-- C9 counterexample: with `episodes_per_learning_round = 1` and
`num_episodes_to_run = 2`, a first round whose episode immediately beats the target
score makes the loop break after a single episode, so the number of episodes actually
run is `1` — strictly below `num_episodes_to_run`, hence not the least multiple of
`episodes_per_learning_round` that is `≥ num_episodes_to_run` (which is `2`). -/
theorem whole_rounds_counterexample :
    Option.map LoopState.episode_number (run_n_episodes hpRounds batchesOne stInit)
      = some 1
    ∧ 1 < hpRounds.num_episodes_to_run := by
  refine ⟨?_, by decide⟩
  rw [run_break_step hpRounds batchesOne stInit (by decide)
    (by simp [collect_and_save, save_result, save_max_result_seen, npMean, lastWindow,
      hpRounds, batchesOne, stInit])]
  rfl

lemma run_no_break (hp : PPOHyper) (batches : ℕ → List (List ℚ))
    (hepr : 0 < hp.episodes_per_learning_round)
    (hnb : ∀ s : LoopState,
      s.max_rolling_score_seen ≤ hp.average_score_required_to_win →
      (collect_and_save hp batches s).max_rolling_score_seen
        ≤ hp.average_score_required_to_win) :
    ∀ (fuel : ℕ) (st : LoopState),
      hp.num_episodes_to_run - st.episode_number < fuel →
      st.max_rolling_score_seen ≤ hp.average_score_required_to_win →
      ∃ (st' : LoopState) (k : ℕ),
        run_n_episodes_aux hp batches fuel st = some st'
        ∧ st'.episode_number
            = st.episode_number + k * hp.episodes_per_learning_round
        ∧ hp.num_episodes_to_run ≤ st'.episode_number
        ∧ (st'.episode_number = st.episode_number
            ∨ st'.episode_number - hp.episodes_per_learning_round
                < hp.num_episodes_to_run) := by
  intro fuel
  induction fuel with
  | zero => intro st hf _; omega
  | succ fuel ih =>
    intro st hf hmax
    by_cases hrun : st.episode_number < hp.num_episodes_to_run
    · have hmax1 := hnb st hmax
      have hnowin : ¬ hp.average_score_required_to_win
          < (collect_and_save hp batches st).max_rolling_score_seen := not_lt.mpr hmax1
      have hepstep : (learn_and_sync hp (collect_and_save hp batches st)).episode_number
          = st.episode_number + hp.episodes_per_learning_round := rfl
      have hmax2 : (learn_and_sync hp (collect_and_save hp batches st)).max_rolling_score_seen
          ≤ hp.average_score_required_to_win := hmax1
      obtain ⟨st', k, heq, hep, hge, hlast⟩ :=
        ih (learn_and_sync hp (collect_and_save hp batches st)) (by omega) hmax2
      refine ⟨st', k + 1, ?_, ?_, hge, ?_⟩
      · rw [run_continue_step hp batches st fuel hrun hnowin]; exact heq
      · rw [hep, hepstep]; ring
      · rcases hlast with h | h
        · right; rw [h, hepstep]; omega
        · right; exact h
    · exact ⟨st, 0, run_done_step hp batches st fuel hrun, by simp, by omega, Or.inl rfl⟩

/-- C9 amended: `run_n_episodes` always runs episodes in whole rounds of
`episodes_per_learning_round`; when the early-termination condition is never met
(and `episodes_per_learning_round > 0`, without which the source loop never
terminates), the number of episodes actually run is the least multiple of
`episodes_per_learning_round` that is `≥ num_episodes_to_run` — characterised as a
multiple of `episodes_per_learning_round` lying in
`[num_episodes_to_run, num_episodes_to_run + episodes_per_learning_round)`, which can
strictly exceed `num_episodes_to_run`. (The unamended claim is false: on an early
break the count is a multiple of `episodes_per_learning_round` but can stay below
`num_episodes_to_run`.) -/
theorem run_whole_rounds (hp : PPOHyper) (batches : ℕ → List (List ℚ))
    (st : LoopState) (hepr : 0 < hp.episodes_per_learning_round)
    (hstart : st.episode_number = 0)
    (hmax : st.max_rolling_score_seen ≤ hp.average_score_required_to_win)
    (hnb : ∀ s : LoopState,
      s.max_rolling_score_seen ≤ hp.average_score_required_to_win →
      (collect_and_save hp batches s).max_rolling_score_seen
        ≤ hp.average_score_required_to_win) :
    ∃ st' : LoopState,
      run_n_episodes hp batches st = some st'
      ∧ hp.num_episodes_to_run ≤ st'.episode_number
      ∧ st'.episode_number
          < hp.num_episodes_to_run + hp.episodes_per_learning_round
      ∧ hp.episodes_per_learning_round ∣ st'.episode_number := by
  obtain ⟨st', k, heq, hep, hge, hlast⟩ :=
    run_no_break hp batches hepr hnb (hp.num_episodes_to_run + 1) st (by omega) hmax
  refine ⟨st', heq, hge, ?_, ?_⟩
  · rcases hlast with h | h
    · omega
    · omega
  · rw [hep, hstart, zero_add]
    exact dvd_mul_left hp.episodes_per_learning_round k

/-- Witness for C9 (amended): rounds of two episodes, three episodes requested, no
scores ever recorded, target never beaten — the loop runs four episodes. -/
theorem run_whole_rounds_witness :
    ∃ st' : LoopState,
      run_n_episodes hpOvershoot batchesEmpty stInit = some st'
      ∧ hpOvershoot.num_episodes_to_run ≤ st'.episode_number
      ∧ st'.episode_number
          < hpOvershoot.num_episodes_to_run + hpOvershoot.episodes_per_learning_round
      ∧ hpOvershoot.episodes_per_learning_round ∣ st'.episode_number :=
  run_whole_rounds hpOvershoot batchesEmpty stInit (by decide) rfl (le_refl 0)
    (fun s h => by
      simpa [collect_and_save, save_result, save_max_result_seen, batchesEmpty,
        List.drop_length, hpOvershoot] using h)

/-! ## C8: the score histories stay aligned -/

/-- C8: after every `save_result` invocation that starts from aligned histories, the
rolling-average history has the same length as the full per-episode score history
(one entry of each appended per episode of the batch), both grow by appending only,
and every appended rolling entry equals the `np.mean` of the most recent
`rolling_score_window` entries of the full score history at the moment of the append
(the prefix of length `i + 1`). The final `LoopState` of `run_n_episodes` returns
exactly these two histories. -/
theorem save_result_invariant (rolling_score_window : ℕ) :
    ∀ (batch : List (List ℚ)) (scores rolling : List ℚ),
      scores.length = rolling.length →
      ((save_result rolling_score_window scores rolling batch).1.length
          = (save_result rolling_score_window scores rolling batch).2.length)
      ∧ (∃ t, (save_result rolling_score_window scores rolling batch).1 = scores ++ t)
      ∧ (∃ t, (save_result rolling_score_window scores rolling batch).2 = rolling ++ t)
      ∧ ∀ i, rolling.length ≤ i →
          i < (save_result rolling_score_window scores rolling batch).2.length →
          (save_result rolling_score_window scores rolling batch).2.getD i 0
            = npMean (lastWindow rolling_score_window
                ((save_result rolling_score_window scores rolling batch).1.take (i + 1))) := by
  intro batch
  induction batch with
  | nil =>
    intro scores rolling h
    refine ⟨h, ⟨[], by simp [save_result]⟩, ⟨[], by simp [save_result]⟩, ?_⟩
    intro i h1 h2
    simp only [save_result] at h2
    omega
  | cons ep eps ih =>
    intro scores rolling h
    have hstep : save_result rolling_score_window scores rolling (ep :: eps)
        = save_result rolling_score_window (scores ++ [ep.sum])
            (rolling ++ [npMean (lastWindow rolling_score_window (scores ++ [ep.sum]))])
            eps := rfl
    rw [hstep]
    set m := npMean (lastWindow rolling_score_window (scores ++ [ep.sum])) with hm
    have h1 : (scores ++ [ep.sum]).length = (rolling ++ [m]).length := by simp [h]
    obtain ⟨hlen, ⟨t1, ht1⟩, ⟨t2, ht2⟩, hent⟩ := ih (scores ++ [ep.sum]) (rolling ++ [m]) h1
    refine ⟨hlen, ⟨[ep.sum] ++ t1, by rw [ht1, List.append_assoc]⟩,
      ⟨[m] ++ t2, by rw [ht2, List.append_assoc]⟩, ?_⟩
    intro i hi hilt
    by_cases hcase : (rolling ++ [m]).length ≤ i
    · exact hent i hcase hilt
    · have hieq : i = rolling.length := by simp at hcase; omega
      subst hieq
      rw [ht2, List.getD_append _ _ _ _ (by simp)]
      have hval : (rolling ++ [m]).getD rolling.length 0 = m := by
        rw [List.getD_append_right _ _ _ _ (le_refl _), Nat.sub_self]
        rfl
      rw [hval, ht1]
      have hlen1 : (scores ++ [ep.sum]).length = rolling.length + 1 := by simp [h]
      have htake : ((scores ++ [ep.sum]) ++ t1).take (rolling.length + 1)
          = scores ++ [ep.sum] := by
        rw [← hlen1, List.take_left]
      rw [htake]

/-- Witness for C8: window `2`, two episodes with rewards `[1, 2]` and `[4]`; the
second appended rolling entry is the mean of the last two scores at that moment. -/
theorem save_result_invariant_witness :
    ([] : List ℚ).length = ([] : List ℚ).length
    ∧ (save_result 2 [] [] [[1, 2], [4]]).2.getD 1 0
        = npMean (lastWindow 2 ((save_result 2 [] [] [[1, 2], [4]]).1.take (1 + 1))) :=
  ⟨rfl, (save_result_invariant 2 [[1, 2], [4]] [] [] rfl).2.2.2 1 (by decide) (by decide)⟩

/-! ## C6: inf/NaN ratios and the loss -/

/-- C6 counterexample: with `clip_epsilon = 1`, a single timestep whose probability
ratio is `+inf` paired with the discounted return `-1` gives the loss `+inf`, and a
`NaN` ratio gives the loss `NaN`: the clamp inside `calculate_loss` does not keep the
special value out of the loss (the raw ratio still enters the `min`), and nothing
between the loss and the optimiser step asserts or guards, so the value reaches the
optimiser silently — refuting the claim that a clamp or assertion prevents the
corruption. -/
theorem loss_corrupted_by_special_values :
    calculate_loss_float 1 [FVal.pinf] [FVal.fin (-1)] = FVal.pinf
    ∧ calculate_loss_float 1 [FVal.nan] [FVal.fin 1] = FVal.nan := by
  constructor
  · show fdivNat (fneg (fsum [fmin (fmul FVal.pinf (FVal.fin (-1)))
      (fmul (fclamp FVal.pinf (FVal.fin (1 - 1)) (FVal.fin (1 + 1))) (FVal.fin (-1)))])) 1
      = FVal.pinf
    norm_num [fclamp, fmax, fmin, fmul, fsum, fadd, fneg, fdivNat]
  · show fdivNat (fneg (fsum [fmin (fmul FVal.nan (FVal.fin 1))
      (fmul (fclamp FVal.nan (FVal.fin (1 - 1)) (FVal.fin (1 + 1))) (FVal.fin 1))])) 1
      = FVal.nan
    norm_num [fclamp, fmax, fmin, fmul, fsum, fadd, fneg, fdivNat]

/-- C6 amended: the clamp inside `calculate_loss` bounds an infinite probability
ratio only when the paired discounted return is positive (the `min` then selects the
finite clipped surrogate, so the loss term is the clipped `-(1 + eps) * G`); with a
negative return the infinity propagates through the `min` into the loss, and no
assertion or further guard is applied before the optimiser step. -/
theorem clamp_rescues_only_positive_returns (eps G : ℚ) (heps : 0 < eps) (hG : 0 < G) :
    calculate_loss_float eps [FVal.pinf] [FVal.fin G] = FVal.fin (-((1 + eps) * G))
    ∧ calculate_loss_float eps [FVal.pinf] [FVal.fin (-G)] = FVal.pinf := by
  have h1 : ¬ (0 : ℚ) < -G := by linarith
  have h2 : -G < (0 : ℚ) := by linarith
  constructor
  · show fdivNat (fneg (fsum [fmin (fmul FVal.pinf (FVal.fin G))
      (fmul (fclamp FVal.pinf (FVal.fin (1 - eps)) (FVal.fin (1 + eps))) (FVal.fin G))])) 1
      = FVal.fin (-((1 + eps) * G))
    simp [fclamp, fmax, fmin, fmul, fsum, fadd, fneg, fdivNat, hG]
  · show fdivNat (fneg (fsum [fmin (fmul FVal.pinf (FVal.fin (-G)))
      (fmul (fclamp FVal.pinf (FVal.fin (1 - eps)) (FVal.fin (1 + eps)))
        (FVal.fin (-G)))])) 1
      = FVal.pinf
    simp [fclamp, fmax, fmin, fmul, fsum, fadd, fneg, fdivNat, h1, h2]

/-- Witness for C6 (amended) at `clip_epsilon = 1`, `G = 2`. -/
theorem clamp_rescues_only_positive_returns_witness :
    0 < (1 : ℚ) ∧ 0 < (2 : ℚ)
    ∧ (calculate_loss_float 1 [FVal.pinf] [FVal.fin 2] = FVal.fin (-((1 + 1) * 2))
      ∧ calculate_loss_float 1 [FVal.pinf] [FVal.fin (-2)] = FVal.pinf) :=
  ⟨by decide, by decide, clamp_rescues_only_positive_returns 1 2 (by decide) (by decide)⟩

end PPO
